import Mathlib

/-!
Verification of `pre_commit/repository.py`: the hook-repository lifecycle
(create / install / run_hook), the manifest/override merge that produces the
effective hook set, and the cleanup-on-failure behaviour of the fetch.

Python dicts with string keys are modelled as association lists in insertion
order with unique keys maintained by insert-or-assign (`dictInsert`).
External collaborators that are not part of `repository.py` (git, the manifest
loader, the language backends, `clean_path_on_failure`) enter through an
environment record `Env`; the mutable world (in-memory flags, the on-disk
workspace, invocation logs) is an explicit state record `St`.
-/

set_option autoImplicit false

namespace PreCommit

/-- Field values appearing in hook records: strings (id, language, ...) or
lists of strings (args, files, ...). -/
inductive Value where
  | str (s : String)
  | list (xs : List String)
deriving DecidableEq

/-- Python-style mapping with string keys, in insertion order. -/
abbrev Dict (V : Type) := List (String × V)

/-- Lookup in a dict: the value of the first (and, for well-formed dicts,
only) pair carrying the key. -/
def dictGet {V : Type} : Dict V → String → Option V
  | [], _ => none
  | p :: t, k => if p.1 == k then some p.2 else dictGet t k

/-- Python `d[k] = v`: assign in place when the key is present (a Python
dict holds each key at most once), append otherwise. -/
def dictInsert {V : Type} : Dict V → String → V → Dict V
  | [], k, v => [(k, v)]
  | p :: t, k, v => if p.1 == k then (k, v) :: t else p :: dictInsert t k v

/-- Python `dict(base, **extra)`: a copy of `base` updated with every binding
of `extra`; bindings of `extra` win on common keys. -/
def dictUpdate {V : Type} (base extra : Dict V) : Dict V :=
  extra.foldl (fun d p => dictInsert d p.1 p.2) base

/-- Python `dict(pairs)` / `OrderedDict(pairs)`: successive insert-or-assign
starting from the empty dict, so a later pair with a repeated key wins. -/
def dictOfPairs {V : Type} (ps : List (String × V)) : Dict V :=
  ps.foldl (fun d p => dictInsert d p.1 p.2) []

/-- Keys of a dict, in order. -/
def dictKeys {V : Type} (d : Dict V) : List String :=
  d.map (fun p => p.1)

/-- The value of the last pair carrying a key, if any: the binding that
survives when a pair list is poured into a Python dict. -/
def lastBinding {V : Type} : List (String × V) → String → Option V
  | [], _ => none
  | p :: t, k =>
    match lastBinding t k with
    | some v => some v
    | none => if p.1 == k then some p.2 else none

/-- A hook record (a manifest entry, a config override, or an effective
hook) is a dict of field values. -/
abbrev HookRecord := Dict Value

/-- Failures surfaced by repository operations. -/
inductive RepoError where
  /-- Python `KeyError` raised by a dict lookup (missing manifest entry,
  unknown hook id, missing record field). -/
  | keyError (k : String)
  /-- A git command (clone / checkout) exits non-zero. -/
  | calledProcessError
  /-- A language backend's `install_environment` raises. -/
  | installFailure (lang : String)
deriving DecidableEq

/-- Result of a language backend's `run_hook`: exit status plus captured
output, returned as data. -/
structure RunResult where
  returncode : Int
  output : String
deriving DecidableEq

/-- The repository descriptor together with the external collaborators:
`repo_config` fields, the manifest loader's output, the git collaborator's
outcomes, and the language-backend registry (marker path, install outcome,
run outcome). -/
structure Env where
  repo_url : String
  sha : String
  /-- repo_config[\x7bhooks\x7d]: the declared hook override records. -/
  declared_hooks : List HookRecord
  /-- Output of load_manifest(C.MANIFEST_FILE) for this checkout. -/
  manifest_entries : List HookRecord
  /-- Whether the clone step of the git collaborator succeeds. -/
  clone_ok : Bool
  /-- Whether the checkout step of the git collaborator succeeds. -/
  checkout_ok : Bool
  /-- languages[name].ENVIRONMENT_DIR, None when the backend needs no install. -/
  environment_dir : String → Option String
  /-- Whether languages[name].install_environment succeeds. -/
  install_ok : String → Bool
  /-- languages[name].run_hook(scoped runner, effective hook, file_args). -/
  run_result : String → String → HookRecord → List String → RunResult

/-- The mutable world: Repository's two private flags, the durable
filesystem (version directories and environment markers), and logs of the
collaborator invocations that the testable properties count. -/
structure St where
  created : Bool
  installed : Bool
  /-- Version directories present in the hooks workspace. -/
  diskDirs : Finset String
  /-- Environment markers present, keyed by (scoped runner, marker path). -/
  markers : Finset (String × String)
  cloneCalls : Nat
  checkoutCalls : Nat
  /-- Languages whose install_environment was invoked, in order. -/
  installCalls : List String
  /-- Backend run invocations: (language, effective hook, file_args). -/
  runCalls : List (String × HookRecord × List String)

/-- The fresh state of a process that has not touched the workspace. -/
def initSt : St :=
  { created := false
    installed := false
    diskDirs := ∅
    markers := ∅
    cloneCalls := 0
    checkoutCalls := 0
    installCalls := []
    runCalls := [] }

/-- Repository.manifest: dict((hook[\x7bid\x7d], hook) for hook in
load_manifest(C.MANIFEST_FILE)). A record without a string id raises. -/
def manifest (env : Env) : Except RepoError (Dict HookRecord) := do
  let pairs ← env.manifest_entries.mapM (fun h =>
    match dictGet h "id" with
    | some (Value.str i) => Except.ok (i, h)
    | _ => Except.error (RepoError.keyError "id"))
  Except.ok (dictOfPairs pairs)

/-- One element of the generator inside Repository.hooks: the pair
(hook[\x7bid\x7d], dict(hook, **manifest[hook[\x7bid\x7d]])) for one
declared record. A declared id with no manifest entry raises KeyError. -/
def hookPair (man : Dict HookRecord) (hook : HookRecord) :
    Except RepoError (String × HookRecord) :=
  match dictGet hook "id" with
  | some (Value.str i) =>
    match dictGet man i with
    | some entry => Except.ok (i, dictUpdate hook entry)
    | none => Except.error (RepoError.keyError i)
  | _ => Except.error (RepoError.keyError "id")

/-- Repository.hooks, given the manifest mapping, as the OrderedDict of the
per-record pairs. -/
def hooksFrom (man : Dict HookRecord) (declared : List HookRecord) :
    Except RepoError (Dict HookRecord) := do
  let pairs ← declared.mapM (hookPair man)
  Except.ok (dictOfPairs pairs)

/-- Repository.hooks as a function of the environment. -/
def hooks (env : Env) : Except RepoError (Dict HookRecord) := do
  hooksFrom (← manifest env) env.declared_hooks

/-- Repository.languages: set(hook[\x7blanguage\x7d] for hook in
hooks.values()), modelled as a duplicate-free list (set iteration order is
unspecified). -/
def languages (env : Env) : Except RepoError (List String) := do
  let hs ← hooks env
  let ls ← hs.mapM (fun p =>
    match dictGet p.2 "language" with
    | some (Value.str l) => Except.ok l
    | _ => Except.error (RepoError.keyError "language"))
  Except.ok ls.dedup

/-- Repository.get_cmd_runner: PrefixedCommandRunner.from_command_runner
(hooks_cmd_runner, self.sha) — a pure transformation; the scoped runner is
identified by the version prefix it adds. -/
def get_cmd_runner (env : Env) : String :=
  env.sha

/-- Outcome of one stateful repository operation. -/
abbrev StepResult := Except RepoError Unit × St

/-- Modelled from the spec: the version-control collaborator's
"clone without checkout" (git clone --no-checkout repo_url sha). It creates
the target directory; on failure the partially-created directory is left
behind for the enclosing cleanup scope to remove. -/
def gitCloneNoCheckout (env : Env) (s : St) : StepResult :=
  let s1 := { s with
    diskDirs := insert env.sha s.diskDirs
    cloneCalls := s.cloneCalls + 1 }
  if env.clone_ok then (Except.ok (), s1)
  else (Except.error RepoError.calledProcessError, s1)

/-- Modelled from the spec: the version-control collaborator's
"checkout version" (git checkout sha) inside the cloned directory. -/
def gitCheckout (env : Env) (s : St) : StepResult :=
  let s1 := { s with checkoutCalls := s.checkoutCalls + 1 }
  if env.checkout_ok then (Except.ok (), s1)
  else (Except.error RepoError.calledProcessError, s1)

/-- Modelled from the spec: clean_path_on_failure — when the wrapped steps
fail, the target path is removed before the error propagates; on success it
is left in place. -/
def cleanPathOnFailure (path : String) (body : St → StepResult) (s : St) :
    StepResult :=
  match body s with
  | (Except.ok (), s1) => (Except.ok (), s1)
  | (Except.error e, s1) => (Except.error e, { s1 with diskDirs := s1.diskDirs.erase path })

/-- Repository.create: inside the hooks workspace, return at once when the
version directory exists on disk; otherwise clone and check out under the
cleanup scope. create never touches the created flag itself — but the
checkout step runs under self.in_checkout(), whose require_created() finds
the freshly cloned directory (so its nested create returns on the exists
check) and sets the created flag before checkout runs. -/
def create (env : Env) (s : St) : StepResult :=
  if env.sha ∈ s.diskDirs then (Except.ok (), s)
  else
    cleanPathOnFailure env.sha (fun s0 =>
      match gitCloneNoCheckout env s0 with
      | (Except.error e, s1) => (Except.error e, s1)
      | (Except.ok (), s1) =>
        let s2 := { s1 with created := true }
        gitCheckout env s2) s

/-- Repository.require_created: short-circuit on the created flag, else
create() and set the flag (only reached when create returns normally). -/
def require_created (env : Env) (s : St) : StepResult :=
  if s.created then (Except.ok (), s)
  else
    match create env s with
    | (Except.ok (), s1) => (Except.ok (), { s1 with created := true })
    | (Except.error e, s1) => (Except.error e, s1)

/-- The for-loop of Repository.install: for each language, skip when the
backend declares no ENVIRONMENT_DIR or the marker already exists under the
scoped runner; otherwise invoke install_environment, which on success
creates the marker (spec: expected to create the marker path on success)
and on failure raises, propagating out of the loop. -/
def installLoop (env : Env) : List String → St → StepResult
  | [], s => (Except.ok (), s)
  | l :: ls, s =>
    match env.environment_dir l with
    | none => installLoop env ls s
    | some d =>
      if (get_cmd_runner env, d) ∈ s.markers then installLoop env ls s
      else
        let s1 := { s with installCalls := s.installCalls ++ [l] }
        if env.install_ok l then
          installLoop env ls { s1 with markers := insert (get_cmd_runner env, d) s1.markers }
        else (Except.error (RepoError.installFailure l), s1)

/-- Repository.install: require_created, derive the scoped runner, then run
the per-language loop. Computing self.languages can itself raise (missing
manifest entry or field), before any backend is invoked. -/
def install (env : Env) (s : St) : StepResult :=
  match require_created env s with
  | (Except.error e, s1) => (Except.error e, s1)
  | (Except.ok (), s1) =>
    match languages env with
    | Except.error e => (Except.error e, s1)
    | Except.ok langs => installLoop env langs s1

/-- Repository.require_installed: short-circuit on the installed flag, else
install() and set the flag (only reached when install returns normally). -/
def require_installed (env : Env) (s : St) : StepResult :=
  if s.installed then (Except.ok (), s)
  else
    match install env s with
    | (Except.ok (), s1) => (Except.ok (), { s1 with installed := true })
    | (Except.error e, s1) => (Except.error e, s1)

/-- Repository.run_hook: require_installed, derive the scoped runner, look
the id up in self.hooks (KeyError when absent), and delegate to
languages[hook[\x7blanguage\x7d]].run_hook, returning its result verbatim. -/
def run_hook (env : Env) (hook_id : String) (file_args : List String) (s : St) :
    Except RepoError RunResult × St :=
  match require_installed env s with
  | (Except.error e, s1) => (Except.error e, s1)
  | (Except.ok (), s1) =>
    match hooks env with
    | Except.error e => (Except.error e, s1)
    | Except.ok hs =>
      match dictGet hs hook_id with
      | none => (Except.error (RepoError.keyError hook_id), s1)
      | some hook =>
        match dictGet hook "language" with
        | some (Value.str lang) =>
          (Except.ok (env.run_result lang (get_cmd_runner env) hook file_args),
           { s1 with runCalls := s1.runCalls ++ [(lang, hook, file_args)] })
        | _ => (Except.error (RepoError.keyError "language"), s1)

/-- One external call of the creation API, for stating idempotency over
arbitrary call sequences. -/
inductive CreateCall where
  | createCall
  | requireCreatedCall

/-- State reached after one creation-API call (the caller may ignore or
swallow the outcome and call again). -/
def applyCreateCall (env : Env) : CreateCall → St → St
  | CreateCall.createCall, s => (create env s).2
  | CreateCall.requireCreatedCall, s => (require_created env s).2

/-- State reached after a sequence of creation-API calls. -/
def applyCreateCalls (env : Env) (ops : List CreateCall) (s : St) : St :=
  ops.foldl (fun t o => applyCreateCall env o t) s

/-- A small concrete environment: one declared hook x whose manifest entry
names the python language; git succeeds; python's backend installs into
py_env and its runs exit non-zero. -/
def envPy : Env :=
  { repo_url := "git@example.test:hooks"
    sha := "abc123"
    declared_hooks := [[("id", Value.str "x")]]
    manifest_entries := [[("id", Value.str "x"), ("language", Value.str "python")]]
    clone_ok := true
    checkout_ok := true
    environment_dir := fun l => if l = "python" then some "py_env" else none
    install_ok := fun _ => true
    run_result := fun _ _ _ _ => { returncode := 1, output := "a.txt failed" } }

/-- envPy with a second declared hook in the ruby language whose backend
install step fails. -/
def envTwoLangs : Env :=
  { envPy with
    declared_hooks := [[("id", Value.str "x")], [("id", Value.str "y")]]
    manifest_entries := [[("id", Value.str "x"), ("language", Value.str "python")],
      [("id", Value.str "y"), ("language", Value.str "ruby")]]
    environment_dir := fun l =>
      if l = "python" then some "py_env"
      else if l = "ruby" then some "rb_env" else none
    install_ok := fun l => l != "ruby" }

/-- envPy with a failing checkout step. -/
def envCheckoutFails : Env :=
  { envPy with checkout_ok := false }

/-- A fresh process whose workspace already holds the version directory of
envPy. -/
def stWithDir : St :=
  { initSt with diskDirs := {"abc123"} }

/-! ### Dictionary lemmas -/

theorem dictGet_dictInsert {V : Type} (d : Dict V) (k k2 : String) (v : V) :
    dictGet (dictInsert d k v) k2 = if k = k2 then some v else dictGet d k2 := by
  induction d with
  | nil => by_cases h : k = k2 <;> simp [dictInsert, dictGet, h]
  | cons p t ih =>
    by_cases hpk : p.1 = k
    · by_cases h : k = k2 <;> simp [dictInsert, dictGet, hpk, h]
    · by_cases h : k = k2
      · subst h
        simp [dictInsert, dictGet, hpk, ih]
      · by_cases hpk2 : p.1 = k2 <;>
          simp [dictInsert, dictGet, hpk, h, hpk2, Ne.symm h, ih]

theorem dictGet_foldl_dictInsert {V : Type} (ps : List (String × V)) (d : Dict V)
    (k : String) :
    dictGet (ps.foldl (fun d p => dictInsert d p.1 p.2) d) k =
      (lastBinding ps k).elim (dictGet d k) some := by
  induction ps generalizing d with
  | nil => simp [lastBinding]
  | cons p t ih =>
    simp only [List.foldl_cons]
    rw [ih]
    cases hlb : lastBinding t k with
    | some v => simp [lastBinding, hlb]
    | none =>
      by_cases h : p.1 = k <;> simp [lastBinding, hlb, dictGet_dictInsert, h]

theorem dictGet_dictOfPairs {V : Type} (ps : List (String × V)) (k : String) :
    dictGet (dictOfPairs ps) k = lastBinding ps k := by
  rw [dictOfPairs, dictGet_foldl_dictInsert]
  cases lastBinding ps k <;> simp [dictGet]

theorem dictGet_dictUpdate {V : Type} (base extra : Dict V) (k : String) :
    dictGet (dictUpdate base extra) k = (lastBinding extra k).elim (dictGet base k) some := by
  rw [dictUpdate, dictGet_foldl_dictInsert]

theorem lastBinding_eq_none_of_not_mem {V : Type} (t : List (String × V)) (k : String)
    (h : k ∉ dictKeys t) : lastBinding t k = none := by
  induction t with
  | nil => rfl
  | cons p t ih =>
    rw [dictKeys, List.map_cons, List.mem_cons] at h
    push_neg at h
    rw [lastBinding, ih h.2]
    simp [Ne.symm h.1]

theorem lastBinding_eq_dictGet {V : Type} (d : Dict V) (k : String)
    (h : (dictKeys d).Nodup) : lastBinding d k = dictGet d k := by
  induction d with
  | nil => rfl
  | cons p t ih =>
    rw [dictKeys, List.map_cons, List.nodup_cons] at h
    by_cases hpk : p.1 = k
    · have hnone : lastBinding t k = none :=
        lastBinding_eq_none_of_not_mem t k (by rw [← hpk]; exact h.1)
      rw [lastBinding, hnone]
      simp [dictGet, hpk]
    · rw [lastBinding, ih h.2]
      cases hg : dictGet t k <;> simp [dictGet, hpk, hg]

theorem lastBinding_append {V : Type} (ps1 ps2 : List (String × V)) (k : String) :
    lastBinding (ps1 ++ ps2) k =
      (lastBinding ps2 k).elim (lastBinding ps1 k) some := by
  induction ps1 with
  | nil => cases h : lastBinding ps2 k <;> simp [lastBinding, h]
  | cons p t ih =>
    have hcons : lastBinding ((p :: t) ++ ps2) k =
        match lastBinding (t ++ ps2) k with
        | some v => some v
        | none => if p.1 == k then some p.2 else none := rfl
    rw [hcons, ih]
    cases h2 : lastBinding ps2 k <;> cases h3 : lastBinding t k <;>
      simp [lastBinding, h2, h3]

theorem dictKeys_dictInsert {V : Type} (d : Dict V) (k : String) (v : V) :
    dictKeys (dictInsert d k v) =
      if k ∈ dictKeys d then dictKeys d else dictKeys d ++ [k] := by
  induction d with
  | nil => simp [dictInsert, dictKeys]
  | cons p t ih =>
    by_cases hpk : p.1 = k
    · simp [dictInsert, dictKeys, hpk]
    · have hkeys : dictKeys (p :: dictInsert t k v) = p.1 :: dictKeys (dictInsert t k v) := rfl
      have hkeys2 : dictKeys (p :: t) = p.1 :: dictKeys t := rfl
      rw [dictInsert, if_neg (by simp [hpk]), hkeys, hkeys2, ih]
      by_cases hk : k ∈ dictKeys t
      · rw [if_pos hk, if_pos (List.mem_cons_of_mem _ hk)]
      · rw [if_neg hk, if_neg ?_, List.cons_append]
        intro hmem
        rcases List.mem_cons.mp hmem with h1 | h1
        · exact hpk h1.symm
        · exact hk h1

theorem nodup_dictKeys_foldl {V : Type} (ps : List (String × V)) (d : Dict V)
    (h : (dictKeys d).Nodup) :
    (dictKeys (ps.foldl (fun d p => dictInsert d p.1 p.2) d)).Nodup := by
  induction ps generalizing d with
  | nil => simpa using h
  | cons p t ih =>
    simp only [List.foldl_cons]
    apply ih
    rw [dictKeys_dictInsert]
    split
    · exact h
    · next hmem => simp [List.nodup_append, h, hmem]

theorem nodup_dictKeys_dictOfPairs {V : Type} (ps : List (String × V)) :
    (dictKeys (dictOfPairs ps)).Nodup :=
  nodup_dictKeys_foldl ps [] (by simp [dictKeys])

/-! ### mapM lemmas for Except -/

theorem mapM_ok_forall₂ {α β : Type} (f : α → Except RepoError β) (xs : List α)
    (h : ∀ x ∈ xs, ∃ y, f x = Except.ok y) :
    ∃ ys, xs.mapM f = Except.ok ys ∧
      List.Forall₂ (fun x y => f x = Except.ok y) xs ys := by
  induction xs with
  | nil => exact ⟨[], rfl, List.Forall₂.nil⟩
  | cons x t ih =>
    obtain ⟨y, hy⟩ := h x (List.mem_cons_self _ _)
    obtain ⟨ys, hys, hall⟩ := ih (fun a ha => h a (List.mem_cons_of_mem _ ha))
    refine ⟨y :: ys, ?_, List.Forall₂.cons hy hall⟩
    rw [List.mapM_cons, hy, hys]
    rfl

theorem mapM_ok_mem {α β : Type} (f : α → Except RepoError β) (xs : List α)
    (ys : List β) (h : xs.mapM f = Except.ok ys) :
    ∀ x ∈ xs, ∃ y, f x = Except.ok y := by
  induction xs generalizing ys with
  | nil => simp
  | cons x t ih =>
    rw [List.mapM_cons] at h
    cases hfx : f x with
    | error e => rw [hfx] at h; exact Except.noConfusion h
    | ok y =>
      rw [hfx] at h
      cases hmt : t.mapM f with
      | error e => rw [hmt] at h; exact Except.noConfusion h
      | ok ys2 =>
        intro a ha
        rcases List.mem_cons.mp ha with rfl | hat
        · exact ⟨y, hfx⟩
        · exact ih ys2 hmt a hat

/-! ### hookPair and Forall₂ helpers -/

theorem hookPair_eq_of_id (man : Dict HookRecord) (hook : HookRecord) (i : String)
    (hid : dictGet hook "id" = some (Value.str i)) :
    hookPair man hook =
      match dictGet man i with
      | some entry => Except.ok (i, dictUpdate hook entry)
      | none => Except.error (RepoError.keyError i) := by
  unfold hookPair
  rw [hid]

theorem hookPair_ok_id (man : Dict HookRecord) (hook : HookRecord)
    (pr : String × HookRecord) (h : hookPair man hook = Except.ok pr) :
    dictGet hook "id" = some (Value.str pr.1) := by
  cases hg : dictGet hook "id" with
  | none => unfold hookPair at h; rw [hg] at h; exact Except.noConfusion h
  | some v =>
    cases v with
    | list xs => unfold hookPair at h; rw [hg] at h; exact Except.noConfusion h
    | str i2 =>
      rw [hookPair_eq_of_id man hook i2 hg] at h
      cases hm : dictGet man i2 with
      | none => rw [hm] at h; exact Except.noConfusion h
      | some e =>
        rw [hm] at h
        rw [← Except.ok.inj h]

theorem forall₂_append_cons {α β : Type} (R : α → β → Prop) (l1 l2 : List α)
    (a : α) (ys : List β) (h : List.Forall₂ R (l1 ++ a :: l2) ys) :
    ∃ ys1 b ys2, ys = ys1 ++ b :: ys2 ∧ List.Forall₂ R l1 ys1 ∧ R a b ∧
      List.Forall₂ R l2 ys2 := by
  induction l1 generalizing ys with
  | nil =>
    cases h with
    | cons hab ht => exact ⟨[], _, _, rfl, List.Forall₂.nil, hab, ht⟩
  | cons x t ih =>
    cases h with
    | cons hxy ht =>
      obtain ⟨ys1, b, ys2, rfl, h1, h2, h3⟩ := ih _ ht
      exact ⟨_ :: ys1, b, ys2, rfl, List.Forall₂.cons hxy h1, h2, h3⟩

theorem not_mem_keys_of_forall₂ (man : Dict HookRecord) (i : String)
    (l2 : List HookRecord) (ys2 : List (String × HookRecord))
    (h : List.Forall₂ (fun x y => hookPair man x = Except.ok y) l2 ys2)
    (hlast : ∀ r2 ∈ l2, ∀ j, dictGet r2 "id" = some (Value.str j) → j ≠ i) :
    i ∉ dictKeys ys2 := by
  induction h with
  | nil => simp [dictKeys]
  | @cons x y t ys hxy ht ih =>
    have hxid := hookPair_ok_id man x y hxy
    have hne : y.1 ≠ i := hlast x (List.mem_cons_self _ _) y.1 hxid
    have hih := ih (fun r2 h2 => hlast r2 (List.mem_cons_of_mem _ h2))
    have hcons : dictKeys (y :: ys) = y.1 :: dictKeys ys := rfl
    rw [hcons]
    intro hmem
    rcases List.mem_cons.mp hmem with h1 | h1
    · exact hne h1.symm
    · exact hih h1

/-! ### Claim C1: the per-field direction of the hook merge -/

/-- Claim C1, counterexample: for manifest entry
\x7bid: x, language: python, args: []\x7d and override
\x7bid: x, args: [--fix]\x7d the effective hook carries args = [] — the
manifest entry, not the override, wins on the common field, because the
merge is dict(hook, **manifest_entry). -/
theorem hooks_merge_override_wins_counterexample :
    hooksFrom
        [("x", [("id", Value.str "x"), ("language", Value.str "python"),
          ("args", Value.list [])])]
        [[("id", Value.str "x"), ("args", Value.list ["--fix"])]] =
      Except.ok [("x", [("id", Value.str "x"), ("args", Value.list []),
        ("language", Value.str "python")])] ∧
    dictGet [("id", Value.str "x"), ("args", Value.list []),
        ("language", Value.str "python")] "args" ≠ some (Value.list ["--fix"]) := by
  exact ⟨rfl, by decide⟩

/-- Claim C1 (amended): the EffectiveHook for a declared record and its
matching manifest entry takes each field from the manifest entry when the
entry specifies it, and falls back to the override record only for fields
absent from the manifest entry; for the claim's example the effective hook
is \x7bid: x, language: python, args: []\x7d. -/
theorem hooks_merge_manifest_wins (man : Dict HookRecord) (ov entry : HookRecord)
    (i : String)
    (hkeys : (dictKeys entry).Nodup)
    (hid : dictGet ov "id" = some (Value.str i))
    (hman : dictGet man i = some entry) :
    hooksFrom man [ov] = Except.ok [(i, dictUpdate ov entry)] ∧
    ∀ k, dictGet (dictUpdate ov entry) k = (dictGet entry k).elim (dictGet ov k) some := by
  have hp : hookPair man ov = Except.ok (i, dictUpdate ov entry) := by
    rw [hookPair_eq_of_id man ov i hid, hman]
  constructor
  · unfold hooksFrom
    rw [List.mapM_cons, hp, List.mapM_nil]
    rfl
  · intro k
    rw [dictGet_dictUpdate, lastBinding_eq_dictGet entry k hkeys]

/-- Claim C1 (amended), witness at the claim's concrete example. -/
theorem hooks_merge_manifest_wins_witness :
    hooksFrom
        [("x", [("id", Value.str "x"), ("language", Value.str "python"),
          ("args", Value.list [])])]
        [[("id", Value.str "x"), ("args", Value.list ["--fix"])]] =
      Except.ok [("x", dictUpdate
        [("id", Value.str "x"), ("args", Value.list ["--fix"])]
        [("id", Value.str "x"), ("language", Value.str "python"),
          ("args", Value.list [])])] ∧
    ∀ k, dictGet (dictUpdate
        [("id", Value.str "x"), ("args", Value.list ["--fix"])]
        [("id", Value.str "x"), ("language", Value.str "python"),
          ("args", Value.list [])]) k =
      (dictGet [("id", Value.str "x"), ("language", Value.str "python"),
        ("args", Value.list [])] k).elim
        (dictGet [("id", Value.str "x"), ("args", Value.list ["--fix"])] k) some :=
  hooks_merge_manifest_wins
    [("x", [("id", Value.str "x"), ("language", Value.str "python"),
      ("args", Value.list [])])]
    [("id", Value.str "x"), ("args", Value.list ["--fix"])]
    [("id", Value.str "x"), ("language", Value.str "python"), ("args", Value.list [])]
    "x" (by decide) (by decide) (by decide)

/-! ### Claim C4: missing manifest entry -/

/-- Claim C4: when some declared record's id has no matching manifest
entry, computing the hooks mapping fails with an error (the KeyError from
the manifest lookup) and no mapping is produced. -/
theorem hooks_missing_manifest_entry_fails (man : Dict HookRecord)
    (declared : List HookRecord) (hook : HookRecord) (y : String)
    (hmem : hook ∈ declared)
    (hid : dictGet hook "id" = some (Value.str y))
    (hman : dictGet man y = none) :
    ∃ e, hooksFrom man declared = Except.error e := by
  cases hm : declared.mapM (hookPair man) with
  | error e =>
    refine ⟨e, ?_⟩
    unfold hooksFrom
    rw [hm]
    rfl
  | ok ps =>
    obtain ⟨p, hp⟩ := mapM_ok_mem _ _ _ hm hook hmem
    rw [hookPair_eq_of_id man hook y hid, hman] at hp
    exact Except.noConfusion hp

/-- Claim C4, witness: declaring hook id y against an empty manifest. -/
theorem hooks_missing_manifest_entry_fails_witness :
    ∃ e, hooksFrom [] [[("id", Value.str "y")]] = Except.error e :=
  hooks_missing_manifest_entry_fails [] [[("id", Value.str "y")]]
    [("id", Value.str "y")] "y" (by decide) (by decide) (by decide)

/-! ### Claim C10: duplicate declared ids -/

/-- Claim C10: when declaredHooks holds several records with the same id,
the hooks mapping raises no error, keeps one entry per id, and maps the id
to the merge derived from the last such record. -/
theorem hooks_duplicate_id_last_wins (man : Dict HookRecord)
    (l1 l2 : List HookRecord) (r : HookRecord) (i : String) (entry : HookRecord)
    (hid : dictGet r "id" = some (Value.str i))
    (hentry : dictGet man i = some entry)
    (hlast : ∀ r2 ∈ l2, ∀ j, dictGet r2 "id" = some (Value.str j) → j ≠ i)
    (hok : ∀ r2 ∈ l1 ++ r :: l2, ∃ j e2,
      dictGet r2 "id" = some (Value.str j) ∧ dictGet man j = some e2) :
    ∃ m, hooksFrom man (l1 ++ r :: l2) = Except.ok m ∧
      dictGet m i = some (dictUpdate r entry) ∧ (dictKeys m).Nodup := by
  have hall : ∀ r2 ∈ l1 ++ r :: l2, ∃ pr, hookPair man r2 = Except.ok pr := by
    intro r2 h2
    obtain ⟨j, e2, hj, he2⟩ := hok r2 h2
    refine ⟨(j, dictUpdate r2 e2), ?_⟩
    rw [hookPair_eq_of_id man r2 j hj, he2]
  obtain ⟨ys, hys, hfa⟩ := mapM_ok_forall₂ (hookPair man) _ hall
  obtain ⟨ys1, b, ys2, rfl, hfa1, hRb, hfa2⟩ := forall₂_append_cons _ l1 l2 r ys hfa
  have hb : b = (i, dictUpdate r entry) := by
    rw [hookPair_eq_of_id man r i hid, hentry] at hRb
    exact (Except.ok.inj hRb).symm
  subst hb
  have hnone : lastBinding ys2 i = none :=
    lastBinding_eq_none_of_not_mem ys2 i
      (not_mem_keys_of_forall₂ man i l2 ys2 hfa2 hlast)
  refine ⟨dictOfPairs (ys1 ++ (i, dictUpdate r entry) :: ys2), ?_, ?_, ?_⟩
  · unfold hooksFrom
    rw [hys]
    rfl
  · rw [dictGet_dictOfPairs, lastBinding_append]
    simp [lastBinding, hnone]
  · exact nodup_dictKeys_dictOfPairs _

/-- Claim C10, witness: two declared records with id x; the effective hook
for x is the merge from the second record. -/
theorem hooks_duplicate_id_last_wins_witness :
    ∃ m, hooksFrom [("x", [("id", Value.str "x"), ("language", Value.str "python")])]
        [[("id", Value.str "x"), ("args", Value.list ["a"])],
         [("id", Value.str "x"), ("args", Value.list ["b"])]] = Except.ok m ∧
      dictGet m "x" = some (dictUpdate
        [("id", Value.str "x"), ("args", Value.list ["b"])]
        [("id", Value.str "x"), ("language", Value.str "python")]) ∧
      (dictKeys m).Nodup :=
  hooks_duplicate_id_last_wins
    [("x", [("id", Value.str "x"), ("language", Value.str "python")])]
    [[("id", Value.str "x"), ("args", Value.list ["a"])]] []
    [("id", Value.str "x"), ("args", Value.list ["b"])] "x"
    [("id", Value.str "x"), ("language", Value.str "python")]
    (by decide) (by decide)
    (by intro r2 h2; exact absurd h2 (List.not_mem_nil _))
    (by
      intro r2 h2
      rcases List.mem_cons.mp h2 with rfl | h3
      · exact ⟨"x", [("id", Value.str "x"), ("language", Value.str "python")],
          by decide, by decide⟩
      · rcases List.mem_cons.mp h3 with rfl | h4
        · exact ⟨"x", [("id", Value.str "x"), ("language", Value.str "python")],
            by decide, by decide⟩
        · exact absurd h4 (List.not_mem_nil _))

/-! ### Except bind helpers -/

theorem except_bind_ok {α β : Type} (a : α) (g : α → Except RepoError β) :
    (Except.ok a >>= g) = g a := rfl

theorem except_bind_error {α β : Type} (e : RepoError) (g : α → Except RepoError β) :
    ((Except.error e : Except RepoError α) >>= g) = Except.error e := rfl

/-! ### Creation-layer lemmas -/

theorem create_mem (env : Env) (s : St) (h : env.sha ∈ s.diskDirs) :
    create env s = (Except.ok (), s) := by
  unfold create
  rw [if_pos h]

theorem create_not_mem (env : Env) (s : St) (hn : env.sha ∉ s.diskDirs)
    (hc : env.clone_ok = true) (hk : env.checkout_ok = true) :
    create env s = (Except.ok (),
      { s with
          created := true
          diskDirs := insert env.sha s.diskDirs
          cloneCalls := s.cloneCalls + 1
          checkoutCalls := s.checkoutCalls + 1 }) := by
  unfold create cleanPathOnFailure gitCloneNoCheckout gitCheckout
  rw [if_neg hn]
  simp [hc, hk]

theorem require_created_ok (env : Env) (s : St)
    (hc : env.clone_ok = true) (hk : env.checkout_ok = true) :
    (require_created env s).1 = Except.ok () ∧
    ((require_created env s).2.created = true ∨ s.created = true) := by
  unfold require_created
  by_cases h1 : s.created = true
  · simp [h1]
  · by_cases h2 : env.sha ∈ s.diskDirs
    · simp [h1, create_mem env s h2]
    · simp [h1, create_not_mem env s h2 hc hk]

theorem require_created_preserves (env : Env) (s : St) :
    (require_created env s).2.markers = s.markers ∧
    (require_created env s).2.installCalls = s.installCalls ∧
    (require_created env s).2.runCalls = s.runCalls ∧
    (require_created env s).2.installed = s.installed := by
  unfold require_created create cleanPathOnFailure gitCloneNoCheckout gitCheckout
  by_cases h1 : s.created = true <;>
    by_cases h2 : env.sha ∈ s.diskDirs <;>
      by_cases h3 : env.clone_ok = true <;>
        by_cases h4 : env.checkout_ok = true <;>
          simp [h1, h2, h3, h4]

/-! ### Claim C3: cleanup on checkout failure -/

/-- Claim C3: when the clone step succeeds but the checkout step fails,
create propagates the error and the version directory does not exist
afterward, so a later exists check cannot mistake the failed fetch for an
already-fetched repository. -/
theorem create_checkout_failure_cleans (env : Env) (s : St)
    (hnot : env.sha ∉ s.diskDirs)
    (hclone : env.clone_ok = true)
    (hco : env.checkout_ok = false) :
    (create env s).1 = Except.error RepoError.calledProcessError ∧
    env.sha ∉ (create env s).2.diskDirs := by
  unfold create cleanPathOnFailure gitCloneNoCheckout gitCheckout
  rw [if_neg hnot]
  simp [hclone, hco, Finset.mem_erase]

/-- Claim C3, witness: a fresh workspace with a failing checkout step. -/
theorem create_checkout_failure_cleans_witness :
    (create envCheckoutFails initSt).1 = Except.error RepoError.calledProcessError ∧
    envCheckoutFails.sha ∉ (create envCheckoutFails initSt).2.diskDirs :=
  create_checkout_failure_cleans envCheckoutFails initSt (by decide) rfl rfl

/-! ### Claim C2: idempotency of creation -/

/-- Upper bound on clone invocations reachable from a state: one more is
possible only while the version directory is absent. -/
def cloneBound (env : Env) (s : St) : Nat :=
  s.cloneCalls + (if env.sha ∈ s.diskDirs then 0 else 1)

/-- Upper bound on checkout invocations reachable from a state. -/
def checkoutBound (env : Env) (s : St) : Nat :=
  s.checkoutCalls + (if env.sha ∈ s.diskDirs then 0 else 1)

theorem applyCreateCall_bound (env : Env) (o : CreateCall) (s : St)
    (hc : env.clone_ok = true) (hk : env.checkout_ok = true) :
    cloneBound env (applyCreateCall env o s) ≤ cloneBound env s ∧
    checkoutBound env (applyCreateCall env o s) ≤ checkoutBound env s := by
  have hcreate : cloneBound env (create env s).2 ≤ cloneBound env s ∧
      checkoutBound env (create env s).2 ≤ checkoutBound env s := by
    by_cases h2 : env.sha ∈ s.diskDirs
    · rw [create_mem env s h2]
      exact ⟨le_refl _, le_refl _⟩
    · rw [create_not_mem env s h2 hc hk]
      simp [cloneBound, checkoutBound, h2, Finset.mem_insert_self]
  cases o with
  | createCall => exact hcreate
  | requireCreatedCall =>
    by_cases h1 : s.created = true
    · simp [applyCreateCall, require_created, h1]
    · by_cases h2 : env.sha ∈ s.diskDirs
      · simp [applyCreateCall, require_created, h1, create_mem env s h2,
          cloneBound, checkoutBound, h2]
      · simp [applyCreateCall, require_created, h1, create_not_mem env s h2 hc hk,
          cloneBound, checkoutBound, h2, Finset.mem_insert_self]

theorem applyCreateCalls_bound (env : Env) (ops : List CreateCall) (s : St)
    (hc : env.clone_ok = true) (hk : env.checkout_ok = true) :
    cloneBound env (applyCreateCalls env ops s) ≤ cloneBound env s ∧
    checkoutBound env (applyCreateCalls env ops s) ≤ checkoutBound env s := by
  induction ops generalizing s with
  | nil => exact ⟨le_refl _, le_refl _⟩
  | cons o t ih =>
    have hstep := applyCreateCall_bound env o s hc hk
    have hrec := ih (applyCreateCall env o s)
    have hfold : applyCreateCalls env (o :: t) s =
        applyCreateCalls env t (applyCreateCall env o s) := rfl
    rw [hfold]
    exact ⟨le_trans hrec.1 hstep.1, le_trans hrec.2 hstep.2⟩

/-- Claim C2, counterexample: with the version directory already on disk
and no in-memory flag set, create() performs zero clone and checkout calls
but, contrary to the claim, leaves the repository with created = false;
only require_created sets the flag. -/
theorem create_alone_leaves_flag_false_counterexample :
    (create envPy stWithDir).1 = Except.ok () ∧
    (create envPy stWithDir).2.cloneCalls = 0 ∧
    (create envPy stWithDir).2.checkoutCalls = 0 ∧
    (create envPy stWithDir).2.created = false :=
  ⟨rfl, rfl, rfl, rfl⟩

/-- Claim C2 (amended): any sequence of create()/require_created() calls on
one repository performs at most one fetch (one clone and one checkout)
when the fetch collaborator succeeds; and when the version directory is
already on disk with no in-memory flag set, create() is a no-op with zero
fetch calls (leaving the flag false), while require_created() performs
zero fetch calls and ends in the created = true state. -/
theorem create_idempotent (env : Env) (ops : List CreateCall) (s : St)
    (hc : env.clone_ok = true) (hk : env.checkout_ok = true) :
    (applyCreateCalls env ops s).cloneCalls ≤ s.cloneCalls + 1 ∧
    (applyCreateCalls env ops s).checkoutCalls ≤ s.checkoutCalls + 1 ∧
    (env.sha ∈ s.diskDirs → s.created = false →
      create env s = (Except.ok (), s) ∧
      require_created env s = (Except.ok (), { s with created := true })) := by
  have hb := applyCreateCalls_bound env ops s hc hk
  refine ⟨?_, ?_, ?_⟩
  · have h1 : (applyCreateCalls env ops s).cloneCalls ≤
        cloneBound env (applyCreateCalls env ops s) := Nat.le_add_right _ _
    have h2 : cloneBound env s ≤ s.cloneCalls + 1 := by
      unfold cloneBound
      split <;> omega
    exact le_trans (le_trans h1 hb.1) h2
  · have h1 : (applyCreateCalls env ops s).checkoutCalls ≤
        checkoutBound env (applyCreateCalls env ops s) := Nat.le_add_right _ _
    have h2 : checkoutBound env s ≤ s.checkoutCalls + 1 := by
      unfold checkoutBound
      split <;> omega
    exact le_trans (le_trans h1 hb.2) h2
  · intro hmem hflag
    refine ⟨create_mem env s hmem, ?_⟩
    unfold require_created
    rw [hflag]
    simp [create_mem env s hmem]

/-- Claim C2 (amended), witness: three calls starting from a fresh state
whose workspace already holds the version directory. -/
theorem create_idempotent_witness :
    (applyCreateCalls envPy
        [CreateCall.requireCreatedCall, CreateCall.createCall,
         CreateCall.requireCreatedCall] stWithDir).cloneCalls ≤
      stWithDir.cloneCalls + 1 ∧
    (applyCreateCalls envPy
        [CreateCall.requireCreatedCall, CreateCall.createCall,
         CreateCall.requireCreatedCall] stWithDir).checkoutCalls ≤
      stWithDir.checkoutCalls + 1 ∧
    (envPy.sha ∈ stWithDir.diskDirs → stWithDir.created = false →
      create envPy stWithDir = (Except.ok (), stWithDir) ∧
      require_created envPy stWithDir =
        (Except.ok (), { stWithDir with created := true })) :=
  create_idempotent envPy
    [CreateCall.requireCreatedCall, CreateCall.createCall,
     CreateCall.requireCreatedCall] stWithDir rfl rfl

/-! ### Install-loop lemmas -/

theorem installLoop_preserves (env : Env) (langs : List String) (s : St) :
    (installLoop env langs s).2.created = s.created ∧
    (installLoop env langs s).2.installed = s.installed ∧
    (installLoop env langs s).2.diskDirs = s.diskDirs ∧
    (installLoop env langs s).2.cloneCalls = s.cloneCalls ∧
    (installLoop env langs s).2.checkoutCalls = s.checkoutCalls ∧
    (installLoop env langs s).2.runCalls = s.runCalls := by
  induction langs generalizing s with
  | nil => simp [installLoop]
  | cons l ls ih =>
    cases hd : env.environment_dir l with
    | none => simp [installLoop, hd, ih]
    | some d =>
      by_cases hm : (get_cmd_runner env, d) ∈ s.markers
      · simp [installLoop, hd, hm, ih]
      · by_cases hok : env.install_ok l = true
        · simp [installLoop, hd, hm, hok, ih]
        · simp [installLoop, hd, hm, hok]

theorem installLoop_markers_mono (env : Env) (langs : List String) (s : St)
    (x : String × String) (hx : x ∈ s.markers) :
    x ∈ (installLoop env langs s).2.markers := by
  induction langs generalizing s with
  | nil => simpa [installLoop] using hx
  | cons l ls ih =>
    cases hd : env.environment_dir l with
    | none =>
      simp only [installLoop, hd]
      exact ih s hx
    | some d =>
      by_cases hm : (get_cmd_runner env, d) ∈ s.markers
      · simp only [installLoop, hd]
        rw [if_pos hm]
        exact ih s hx
      · by_cases hok : env.install_ok l = true
        · simp only [installLoop, hd]
          rw [if_neg hm, if_pos hok]
          exact ih _ (Finset.mem_insert_of_mem hx)
        · simp only [installLoop, hd]
          rw [if_neg hm, if_neg hok]
          exact hx

theorem installLoop_skips (env : Env) (langs : List String) (s : St)
    (lang d : String) (hd : env.environment_dir lang = some d)
    (hm : (get_cmd_runner env, d) ∈ s.markers) :
    List.count lang (installLoop env langs s).2.installCalls =
      List.count lang s.installCalls := by
  induction langs generalizing s with
  | nil => simp [installLoop]
  | cons l2 ls ih =>
    cases hd2 : env.environment_dir l2 with
    | none =>
      simp only [installLoop, hd2]
      exact ih s hm
    | some d2 =>
      by_cases hm2 : (get_cmd_runner env, d2) ∈ s.markers
      · simp only [installLoop, hd2]
        rw [if_pos hm2]
        exact ih s hm
      · have hne : lang ≠ l2 := by
          intro he
          rw [← he] at hd2
          have hdd : d = d2 := Option.some.inj (hd.symm.trans hd2)
          rw [← hdd] at hm2
          exact hm2 hm
        by_cases hok : env.install_ok l2 = true
        · simp only [installLoop, hd2]
          rw [if_neg hm2, if_pos hok]
          rw [ih _ (Finset.mem_insert_of_mem hm)]
          simp [List.count_append, List.count_cons_of_ne hne]
        · simp only [installLoop, hd2]
          rw [if_neg hm2, if_neg hok]
          simp [List.count_append, List.count_cons_of_ne hne]

theorem installLoop_no_env_dir (env : Env) (langs : List String) (s : St)
    (lang : String) (hd : env.environment_dir lang = none) :
    List.count lang (installLoop env langs s).2.installCalls =
      List.count lang s.installCalls := by
  induction langs generalizing s with
  | nil => simp [installLoop]
  | cons l2 ls ih =>
    cases hd2 : env.environment_dir l2 with
    | none =>
      simp only [installLoop, hd2]
      exact ih s
    | some d2 =>
      have hne : lang ≠ l2 := by
        intro he
        rw [← he, hd] at hd2
        exact Option.noConfusion hd2
      by_cases hm2 : (get_cmd_runner env, d2) ∈ s.markers
      · simp only [installLoop, hd2]
        rw [if_pos hm2]
        exact ih s
      · by_cases hok : env.install_ok l2 = true
        · simp only [installLoop, hd2]
          rw [if_neg hm2, if_pos hok, ih _]
          simp [List.count_append, List.count_cons_of_ne hne]
        · simp only [installLoop, hd2]
          rw [if_neg hm2, if_neg hok]
          simp [List.count_append, List.count_cons_of_ne hne]

theorem installLoop_count_of_not_mem (env : Env) (langs : List String) :
    ∀ (s : St) (lang : String), lang ∉ langs →
      List.count lang (installLoop env langs s).2.installCalls =
        List.count lang s.installCalls := by
  induction langs with
  | nil => intro s lang _; simp [installLoop]
  | cons l2 ls ih =>
    intro s lang hnm
    have hne : lang ≠ l2 := fun he => hnm (he ▸ List.mem_cons_self l2 ls)
    have hnm2 : lang ∉ ls := fun h2 => hnm (List.mem_cons_of_mem _ h2)
    cases hd2 : env.environment_dir l2 with
    | none =>
      simp only [installLoop, hd2]
      exact ih s lang hnm2
    | some d2 =>
      by_cases hm2 : (get_cmd_runner env, d2) ∈ s.markers
      · simp only [installLoop, hd2]
        rw [if_pos hm2]
        exact ih s lang hnm2
      · by_cases hok : env.install_ok l2 = true
        · simp only [installLoop, hd2]
          rw [if_neg hm2, if_pos hok, ih _ lang hnm2]
          simp [List.count_append, List.count_cons_of_ne hne]
        · simp only [installLoop, hd2]
          rw [if_neg hm2, if_neg hok]
          simp [List.count_append, List.count_cons_of_ne hne]

theorem installLoop_installs_once (env : Env) (langs : List String) :
    ∀ (s : St) (lang d : String), langs.Nodup → lang ∈ langs →
      env.environment_dir lang = some d →
      (get_cmd_runner env, d) ∉ s.markers →
      (∀ l2 ∈ langs, ∀ d2, env.environment_dir l2 = some d2 → d2 = d → l2 = lang) →
      (∀ l2 ∈ langs, env.install_ok l2 = true) →
      List.count lang (installLoop env langs s).2.installCalls =
        List.count lang s.installCalls + 1 := by
  induction langs with
  | nil => intro s lang d _ hl; cases hl
  | cons l2 ls ih =>
    intro s lang d hnodup hl hd hm hinj hok
    have htail : ls.Nodup := (List.nodup_cons.mp hnodup).2
    have hinjt : ∀ l3 ∈ ls, ∀ d2, env.environment_dir l3 = some d2 → d2 = d → l3 = lang :=
      fun l3 h3 d2 h4 h5 => hinj l3 (List.mem_cons_of_mem _ h3) d2 h4 h5
    have hokt : ∀ l3 ∈ ls, env.install_ok l3 = true :=
      fun l3 h3 => hok l3 (List.mem_cons_of_mem _ h3)
    rcases List.mem_cons.mp hl with he | hlt
    · subst he
      simp only [installLoop, hd]
      rw [if_neg hm, if_pos (hok lang (List.mem_cons_self _ _))]
      rw [installLoop_count_of_not_mem env ls _ lang (List.nodup_cons.mp hnodup).1]
      simp [List.count_append]
    · have hlne : lang ≠ l2 := by
        intro he
        exact (List.nodup_cons.mp hnodup).1 (he ▸ hlt)
      cases hd2 : env.environment_dir l2 with
      | none =>
        simp only [installLoop, hd2]
        exact ih s lang d htail hlt hd hm hinjt hokt
      | some d2 =>
        have hd2ne : d2 ≠ d := by
          intro he2
          exact hlne (hinj l2 (List.mem_cons_self _ _) d2 hd2 he2).symm
        by_cases hm2 : (get_cmd_runner env, d2) ∈ s.markers
        · simp only [installLoop, hd2]
          rw [if_pos hm2]
          exact ih s lang d htail hlt hd hm hinjt hokt
        · simp only [installLoop, hd2]
          rw [if_neg hm2, if_pos (hok l2 (List.mem_cons_self _ _))]
          have hmnot : (get_cmd_runner env, d) ∉
              insert (get_cmd_runner env, d2) s.markers := by
            rw [Finset.mem_insert]
            rintro (hpair | hmem)
            · exact hd2ne (Prod.ext_iff.mp hpair).2.symm
            · exact hm hmem
          rw [ih _ lang d htail hlt hd hmnot hinjt hokt]
          simp [List.count_append, List.count_cons_of_ne hlne]

theorem installLoop_ok (env : Env) (langs : List String) :
    ∀ s : St, (∀ l2 ∈ langs, env.install_ok l2 = true) →
      (installLoop env langs s).1 = Except.ok () := by
  induction langs with
  | nil => intro s _; rfl
  | cons l2 ls ih =>
    intro s hok
    have hokt : ∀ l3 ∈ ls, env.install_ok l3 = true :=
      fun l3 h3 => hok l3 (List.mem_cons_of_mem _ h3)
    cases hd2 : env.environment_dir l2 with
    | none =>
      simp only [installLoop, hd2]
      exact ih s hokt
    | some d2 =>
      by_cases hm2 : (get_cmd_runner env, d2) ∈ s.markers
      · simp only [installLoop, hd2]
        rw [if_pos hm2]
        exact ih s hokt
      · simp only [installLoop, hd2]
        rw [if_neg hm2, if_pos (hok l2 (List.mem_cons_self _ _))]
        exact ih _ hokt

/-! ### Install lemmas -/

theorem languages_nodup (env : Env) (langs : List String)
    (h : languages env = Except.ok langs) : langs.Nodup := by
  unfold languages at h
  cases hh : hooks env with
  | error e => rw [hh] at h; exact Except.noConfusion h
  | ok hs =>
    simp only [hh, except_bind_ok] at h
    cases hm : hs.mapM (fun p =>
        match dictGet p.2 "language" with
        | some (Value.str l) => Except.ok l
        | _ => Except.error (RepoError.keyError "language")) with
    | error e2 => rw [hm] at h; exact Except.noConfusion h
    | ok ls =>
      rw [hm, except_bind_ok] at h
      rw [← Except.ok.inj h]
      exact List.nodup_dedup ls

theorem install_eq (env : Env) (s : St)
    (hc : env.clone_ok = true) (hk : env.checkout_ok = true) :
    install env s =
      match languages env with
      | Except.error e => (Except.error e, (require_created env s).2)
      | Except.ok langs => installLoop env langs (require_created env s).2 := by
  have h1 : require_created env s = (Except.ok (), (require_created env s).2) := by
    rw [Prod.ext_iff]
    exact ⟨(require_created_ok env s hc hk).1, rfl⟩
  unfold install
  rw [h1]

theorem install_preserves (env : Env) (s : St) :
    (install env s).2.installed = s.installed ∧
    (install env s).2.runCalls = s.runCalls := by
  unfold install
  cases hrc : require_created env s with
  | mk r s1 =>
    have hpres := require_created_preserves env s
    rw [hrc] at hpres
    cases r with
    | error e => exact ⟨hpres.2.2.2, hpres.2.2.1⟩
    | ok u =>
      cases u
      cases hlang : languages env with
      | error e2 =>
        simp only [hlang]
        exact ⟨hpres.2.2.2, hpres.2.2.1⟩
      | ok langs =>
        simp only [hlang]
        have hloop := installLoop_preserves env langs s1
        exact ⟨hloop.2.1.trans hpres.2.2.2, hloop.2.2.2.2.2.trans hpres.2.2.1⟩

theorem install_skips (env : Env) (s : St) (lang d : String)
    (hd : env.environment_dir lang = some d)
    (hm : (get_cmd_runner env, d) ∈ s.markers) :
    List.count lang (install env s).2.installCalls =
      List.count lang s.installCalls := by
  unfold install
  cases hrc : require_created env s with
  | mk r s1 =>
    have hpres := require_created_preserves env s
    rw [hrc] at hpres
    have hm1 : (get_cmd_runner env, d) ∈ s1.markers := by
      have h2 : s1.markers = s.markers := hpres.1
      rw [h2]
      exact hm
    cases r with
    | error e => exact congrArg (List.count lang) hpres.2.1
    | ok u =>
      cases u
      cases hlang : languages env with
      | error e2 =>
        simp only [hlang]
        exact congrArg (List.count lang) hpres.2.1
      | ok langs =>
        simp only [hlang]
        rw [installLoop_skips env langs s1 lang d hd hm1]
        exact congrArg (List.count lang) hpres.2.1

theorem require_installed_skips (env : Env) (s : St) (lang d : String)
    (hd : env.environment_dir lang = some d)
    (hm : (get_cmd_runner env, d) ∈ s.markers) :
    List.count lang (require_installed env s).2.installCalls =
      List.count lang s.installCalls := by
  unfold require_installed
  by_cases hi : s.installed = true
  · simp [hi]
  · simp only [hi, Bool.false_eq_true, if_false]
    cases hins : install env s with
    | mk r2 t =>
      have hcount : List.count lang t.installCalls = List.count lang s.installCalls := by
        have := install_skips env s lang d hd hm
        rw [hins] at this
        exact this
      cases r2 with
      | ok u => cases u; exact hcount
      | error e2 => exact hcount

/-! ### Claim C5: install skip and single invocation -/

/-- Claim C5: during install, a language backend with no environment
marker path, or whose marker already exists under the version-scoped
runner, is never passed to install_environment; otherwise it is invoked
exactly once per distinct language. Counted via the install-invocation
log. -/
theorem install_invokes_backend_once (env : Env) (s : St) (langs : List String)
    (lang : String)
    (hlangs : languages env = Except.ok langs)
    (hc : env.clone_ok = true) (hk : env.checkout_ok = true)
    (hl : lang ∈ langs)
    (hok : ∀ l2 ∈ langs, env.install_ok l2 = true)
    (hinj : ∀ l1 ∈ langs, ∀ l2 ∈ langs, ∀ d2, env.environment_dir l1 = some d2 →
      env.environment_dir l2 = some d2 → l1 = l2) :
    List.count lang (install env s).2.installCalls =
      List.count lang s.installCalls +
      (match env.environment_dir lang with
       | none => 0
       | some d => if (get_cmd_runner env, d) ∈ s.markers then 0 else 1) := by
  rw [install_eq env s hc hk, hlangs]
  have hpres := require_created_preserves env s
  cases hdl : env.environment_dir lang with
  | none =>
    rw [installLoop_no_env_dir env langs _ lang hdl, hpres.2.1]
    simp
  | some d =>
    by_cases hmm : (get_cmd_runner env, d) ∈ s.markers
    · rw [installLoop_skips env langs _ lang d hdl (by rw [hpres.1]; exact hmm),
        hpres.2.1]
      simp [hmm]
    · rw [installLoop_installs_once env langs _ lang d
        (languages_nodup env langs hlangs) hl hdl
        (by rw [hpres.1]; exact hmm)
        (fun l2 h2 d2 hd2 hdd =>
          hinj l2 h2 lang hl d2 hd2 (by rw [hdd]; exact hdl))
        hok, hpres.2.1]
      simp [hmm]

/-- Claim C5, witness: the python backend of envPy is invoked exactly once
from a fresh state. -/
theorem install_invokes_backend_once_witness :
    List.count "python" (install envPy initSt).2.installCalls =
      List.count "python" initSt.installCalls +
      (match envPy.environment_dir "python" with
       | none => 0
       | some d => if (get_cmd_runner envPy, d) ∈ initSt.markers then 0 else 1) :=
  install_invokes_backend_once envPy initSt ["python"] "python" rfl rfl rfl
    (by decide)
    (by intro l2 h2; rfl)
    (by
      intro l1 h1 l2 h2 d2 hd1 hd2
      rw [List.mem_singleton] at h1 h2
      rw [h1, h2])

/-! ### Claim C6: the installed flag and mid-loop failure -/

/-- Claim C6: the installed flag is set only after the install loop
finishes; a mid-loop backend failure propagates with the flag still false,
and the next require_installed re-attempts installation while skipping
languages whose markers now exist. -/
theorem install_failure_leaves_flag_false (env : Env) (s : St) (e : RepoError)
    (s1 : St)
    (hinst : s.installed = false)
    (hfail : install env s = (Except.error e, s1)) :
    require_installed env s = (Except.error e, s1) ∧
    s1.installed = false ∧
    require_installed env s1 =
      (match install env s1 with
       | (Except.ok _, t) => (Except.ok (), { t with installed := true })
       | (Except.error e2, t) => (Except.error e2, t)) ∧
    (∀ lang d, env.environment_dir lang = some d →
      (get_cmd_runner env, d) ∈ s1.markers →
      List.count lang (require_installed env s1).2.installCalls =
        List.count lang s1.installCalls) := by
  have h1 : s1.installed = false := by
    have := (install_preserves env s).1
    rw [hfail] at this
    rw [this]
    exact hinst
  refine ⟨?_, h1, ?_, ?_⟩
  · unfold require_installed
    rw [hinst]
    simp only [Bool.false_eq_true, if_false, hfail]
  · cases hi : install env s1 with
    | mk r2 t =>
      cases r2 with
      | ok u => cases u; simp [require_installed, h1, hi]
      | error e2 => simp [require_installed, h1, hi]
  · intro lang d hd hm
    exact require_installed_skips env s1 lang d hd hm

/-- Claim C6, witness: in envTwoLangs the ruby install fails after the
python install succeeded; the flag stays false and the retry skips
python. -/
theorem install_failure_leaves_flag_false_witness :
    require_installed envTwoLangs initSt =
      (Except.error (RepoError.installFailure "ruby"),
        (install envTwoLangs initSt).2) ∧
    (install envTwoLangs initSt).2.installed = false ∧
    require_installed envTwoLangs (install envTwoLangs initSt).2 =
      (match install envTwoLangs (install envTwoLangs initSt).2 with
       | (Except.ok _, t) => (Except.ok (), { t with installed := true })
       | (Except.error e2, t) => (Except.error e2, t)) ∧
    (∀ lang d, envTwoLangs.environment_dir lang = some d →
      (get_cmd_runner envTwoLangs, d) ∈ (install envTwoLangs initSt).2.markers →
      List.count lang
          (require_installed envTwoLangs
            (install envTwoLangs initSt).2).2.installCalls =
        List.count lang (install envTwoLangs initSt).2.installCalls) :=
  install_failure_leaves_flag_false envTwoLangs initSt
    (RepoError.installFailure "ruby") (install envTwoLangs initSt).2 rfl rfl

/-! ### Run-layer lemmas -/

theorem require_installed_runCalls (env : Env) (s : St) :
    (require_installed env s).2.runCalls = s.runCalls := by
  unfold require_installed
  by_cases hi : s.installed = true
  · simp [hi]
  · simp only [hi, Bool.false_eq_true, if_false]
    cases hins : install env s with
    | mk r2 t =>
      have hrc : t.runCalls = s.runCalls := by
        have := (install_preserves env s).2
        rw [hins] at this
        exact this
      cases r2 with
      | ok u => cases u; exact hrc
      | error e2 => exact hrc

theorem require_created_fresh (env : Env) (s : St) (hf : s.created = false)
    (hn : env.sha ∉ s.diskDirs)
    (hc : env.clone_ok = true) (hk : env.checkout_ok = true) :
    require_created env s = (Except.ok (),
      { s with
          created := true
          diskDirs := insert env.sha s.diskDirs
          cloneCalls := s.cloneCalls + 1
          checkoutCalls := s.checkoutCalls + 1 }) := by
  unfold require_created
  rw [hf]
  simp [create_not_mem env s hn hc hk]

/-! ### Claim C7: run dispatch returns the backend result unmodified -/

/-- Claim C7: for a hook id present in the hooks mapping, run_hook invokes
the backend named by the effective hook's language field, passing the
effective hook and the file arguments under the version-scoped runner, and
returns the backend's result unmodified — a non-zero exit code stays a
returned value, never an error. -/
theorem run_hook_dispatch (env : Env) (s : St) (hook_id : String)
    (file_args : List String) (s1 : St) (hs : Dict HookRecord)
    (hook : HookRecord) (lang : String)
    (hreq : require_installed env s = (Except.ok (), s1))
    (hh : hooks env = Except.ok hs)
    (hhid : dictGet hs hook_id = some hook)
    (hlang : dictGet hook "language" = some (Value.str lang)) :
    run_hook env hook_id file_args s =
      (Except.ok (env.run_result lang (get_cmd_runner env) hook file_args),
       { s1 with runCalls := s1.runCalls ++ [(lang, hook, file_args)] }) := by
  unfold run_hook
  simp only [hreq, hh, hhid, hlang]

/-- Claim C7, witness: the python backend's non-zero exit result comes
back unchanged as a value. -/
theorem run_hook_dispatch_witness :
    run_hook envPy "x" ["a.txt"] initSt =
      (Except.ok { returncode := 1, output := "a.txt failed" },
       { (require_installed envPy initSt).2 with
           runCalls := (require_installed envPy initSt).2.runCalls ++
             [("python", [("id", Value.str "x"), ("language", Value.str "python")],
               ["a.txt"])] }) :=
  run_hook_dispatch envPy initSt "x" ["a.txt"]
    (require_installed envPy initSt).2
    [("x", [("id", Value.str "x"), ("language", Value.str "python")])]
    [("id", Value.str "x"), ("language", Value.str "python")] "python"
    rfl rfl rfl rfl

/-! ### Claim C8: unknown hook id -/

/-- Claim C8: a hook id absent from the effective hooks mapping makes
run_hook fail with the KeyError for that id, immediately and with no
backend run invocation. -/
theorem run_hook_unknown_id (env : Env) (s : St) (hook_id : String)
    (file_args : List String) (s1 : St) (hs : Dict HookRecord)
    (hreq : require_installed env s = (Except.ok (), s1))
    (hh : hooks env = Except.ok hs)
    (hhid : dictGet hs hook_id = none) :
    run_hook env hook_id file_args s =
      (Except.error (RepoError.keyError hook_id), s1) ∧
    s1.runCalls = s.runCalls := by
  constructor
  · unfold run_hook
    simp only [hreq, hh, hhid]
  · have h2 := require_installed_runCalls env s
    rw [hreq] at h2
    exact h2

/-- Claim C8, witness: asking envPy for the unknown id zzz. -/
theorem run_hook_unknown_id_witness :
    run_hook envPy "zzz" ["a.txt"] initSt =
      (Except.error (RepoError.keyError "zzz"),
        (require_installed envPy initSt).2) ∧
    (require_installed envPy initSt).2.runCalls = initSt.runCalls :=
  run_hook_unknown_id envPy initSt "zzz" ["a.txt"]
    (require_installed envPy initSt).2
    [("x", [("id", Value.str "x"), ("language", Value.str "python")])]
    rfl rfl rfl

/-! ### Claim C9: side effects precede the unknown-id failure -/

/-- Claim C9: run_hook performs require_installed before resolving the
hook id, so even for an unknown id the fetch and the installs have
happened by the time the KeyError surfaces: afterwards the created and
installed flags are set and exactly one clone was performed. -/
theorem run_hook_unknown_id_side_effects (env : Env) (s : St) (hook_id : String)
    (file_args : List String) (langs : List String) (hs : Dict HookRecord)
    (hcre : s.created = false) (hins : s.installed = false)
    (hnot : env.sha ∉ s.diskDirs)
    (hc : env.clone_ok = true) (hk : env.checkout_ok = true)
    (hlangs : languages env = Except.ok langs)
    (hokl : ∀ l2 ∈ langs, env.install_ok l2 = true)
    (hh : hooks env = Except.ok hs)
    (hhid : dictGet hs hook_id = none) :
    (run_hook env hook_id file_args s).1 =
      Except.error (RepoError.keyError hook_id) ∧
    (run_hook env hook_id file_args s).2.created = true ∧
    (run_hook env hook_id file_args s).2.installed = true ∧
    (run_hook env hook_id file_args s).2.cloneCalls = s.cloneCalls + 1 := by
  obtain ⟨sf, hsf, hsfcre, hsfclone⟩ :
      ∃ sf, require_created env s = (Except.ok (), sf) ∧ sf.created = true ∧
        sf.cloneCalls = s.cloneCalls + 1 :=
    ⟨_, require_created_fresh env s hcre hnot hc hk, rfl, rfl⟩
  have hie := install_eq env s hc hk
  simp only [hsf, hlangs] at hie
  have hloopok := installLoop_ok env langs sf hokl
  have hloop := installLoop_preserves env langs sf
  have hinstall : install env s = (Except.ok (), (installLoop env langs sf).2) := by
    rw [hie, Prod.ext_iff]
    exact ⟨hloopok, rfl⟩
  have hreq : require_installed env s =
      (Except.ok (), { (installLoop env langs sf).2 with installed := true }) := by
    unfold require_installed
    rw [hins]
    simp [hinstall]
  unfold run_hook
  simp only [hreq, hh, hhid]
  refine ⟨trivial, ?_, trivial, ?_⟩
  · show (installLoop env langs sf).2.created = true
    rw [hloop.1, hsfcre]
  · show (installLoop env langs sf).2.cloneCalls = s.cloneCalls + 1
    rw [hloop.2.2.2.1, hsfclone]

/-- Claim C9, witness: asking envPy for the unknown id zzz from a fresh
state still fetches and installs before failing. -/
theorem run_hook_unknown_id_side_effects_witness :
    (run_hook envPy "zzz" ["a.txt"] initSt).1 =
      Except.error (RepoError.keyError "zzz") ∧
    (run_hook envPy "zzz" ["a.txt"] initSt).2.created = true ∧
    (run_hook envPy "zzz" ["a.txt"] initSt).2.installed = true ∧
    (run_hook envPy "zzz" ["a.txt"] initSt).2.cloneCalls = initSt.cloneCalls + 1 :=
  run_hook_unknown_id_side_effects envPy initSt "zzz" ["a.txt"] ["python"]
    [("x", [("id", Value.str "x"), ("language", Value.str "python")])]
    rfl rfl (by decide) rfl rfl rfl
    (by intro l2 h2; rfl) rfl rfl

end PreCommit
